import Mathlib

/-!
# Shallow embedding of the ICPC scoreboard system (src/main.cpp)

The C++ program keeps, per team, the solved count, penalty, per-problem
wrong-submission counters, per-problem first-acceptance times, a
descending-sorted list of solve times, and the submission history; the
system keeps a freeze flag, a team map, a visible order and a global
submission log.  `std::map` is modelled by an association list: the code
never iterates over a map, so only lookup/insert/update semantics are
observable.  `std::sort` is modelled by insertion sort: the comparators
used are (on the states the program reaches) strict total orders on the
distinct elements being sorted, for which every sorting algorithm
produces the same, unique, sorted permutation.
-/

structure Submission where
  team_name : String
  problem_name : String
  status : String
  time : Nat
deriving DecidableEq, Repr

structure Team where
  name : String := ""
  solved_problems : Nat := 0
  penalty_time : Nat := 0
  wrong_submissions : List (String × Nat) := []
  first_ac_time : List (String × Nat) := []
  solve_times : List Nat := []
  submissions : List Submission := []
deriving DecidableEq, Repr

structure ICPCSystem where
  duration_time : Nat := 0
  is_frozen : Bool := false
  teams : List (String × Team) := []
  team_order : List String := []
  all_submissions : List Submission := []
deriving DecidableEq, Repr

/-- Association-list lookup (the observable behaviour of `std::map::find`). -/
def alookup {α : Type} : List (String × α) → String → Option α
  | [], _ => none
  | (k', v) :: rest, k => if k' = k then some v else alookup rest k

/-- Reading a counter through `operator[]`: absent keys read as the
default-constructed `0`. -/
def lookupD (l : List (String × Nat)) (k : String) : Nat :=
  match alookup l k with
  | some v => v
  | none => 0

/-- `map[k]++`: increment the entry, default-inserting `0` first when absent. -/
def bumpCount : List (String × Nat) → String → List (String × Nat)
  | [], k => [(k, 1)]
  | (k', v) :: rest, k =>
    if k' = k then (k', v + 1) :: rest else (k', v) :: bumpCount rest k

/-- A read through `operator[]` inserts the key with value `0` when absent
(`int wrong_count = team.wrong_submissions[sub.problem_name];`). -/
def touchKey : List (String × Nat) → String → List (String × Nat)
  | [], k => [(k, 0)]
  | (k', v) :: rest, k =>
    if k' = k then (k', v) :: rest else (k', v) :: touchKey rest k

/-- Update the team stored under a key in place (`teams[team_name]` mutation);
every other entry is untouched. -/
def updateTeam : List (String × Team) → String → (Team → Team) → List (String × Team)
  | [], _, _ => []
  | (k', v) :: rest, k, f =>
    if k' = k then (k', f v) :: updateTeam rest k f
    else (k', v) :: updateTeam rest k f

/-- `sort(v.rbegin(), v.rend())`: re-establish descending order. -/
def sortDesc (xs : List Nat) : List Nat :=
  List.insertionSort (fun a b => a ≥ b) xs

/-- `ICPCSystem::update_team_stats` (src/main.cpp lines 36-54). -/
def update_team_stats (team : Team) (sub : Submission) : Team :=
  let team := { team with submissions := team.submissions ++ [sub] }
  if sub.status = "Accepted" then
    if alookup team.first_ac_time sub.problem_name = none then
      let wrong_count := lookupD team.wrong_submissions sub.problem_name
      { team with
        first_ac_time := team.first_ac_time ++ [(sub.problem_name, sub.time)],
        wrong_submissions := touchKey team.wrong_submissions sub.problem_name,
        penalty_time := team.penalty_time + (20 * wrong_count + sub.time),
        solved_problems := team.solved_problems + 1,
        solve_times := sortDesc (team.solve_times ++ [sub.time]) }
    else
      team
  else
    { team with wrong_submissions := bumpCount team.wrong_submissions sub.problem_name }

/-- `teams[a]` read inside the comparator; on the names the program ever
compares the key is present, otherwise `operator[]` yields a
default-constructed `Team`. -/
def getTeam (s : ICPCSystem) (n : String) : Team :=
  match alookup s.teams n with
  | some t => t
  | none => {}

/-- The element-wise loop over the common prefix of the two solve-time
lists inside `compare_teams`: `some r` when the loop returned early at the
first differing position, `none` when it ran to the end of the shorter
list. -/
def cmpTimes : List Nat → List Nat → Option Bool
  | x :: xs, y :: ys => if x = y then cmpTimes xs ys else some (decide (x < y))
  | _, _ => none

/-- `ICPCSystem::compare_teams` (src/main.cpp lines 56-72); `teamA`/`teamB`
of the C++ are inlined as `getTeam s a` / `getTeam s b`. -/
def compare_teams (s : ICPCSystem) (a b : String) : Bool :=
  if (getTeam s a).solved_problems ≠ (getTeam s b).solved_problems then
    decide ((getTeam s a).solved_problems > (getTeam s b).solved_problems)
  else if (getTeam s a).penalty_time ≠ (getTeam s b).penalty_time then
    decide ((getTeam s a).penalty_time < (getTeam s b).penalty_time)
  else
    match cmpTimes (getTeam s a).solve_times (getTeam s b).solve_times with
    | some r => r
    | none => decide (a < b)

/-- `ICPCSystem::update_scoreboard`: sort `team_order` by `compare_teams`. -/
def update_scoreboard (s : ICPCSystem) : ICPCSystem :=
  { s with
    team_order :=
      List.insertionSort (fun a b => compare_teams s a b = true) s.team_order }

/-- `ICPCSystem::start`. -/
def start (s : ICPCSystem) (duration : Nat) : ICPCSystem :=
  { s with duration_time := duration }

/-- `ICPCSystem::add_team`; `false` is the DuplicateTeam error. -/
def add_team (s : ICPCSystem) (team_name : String) : ICPCSystem × Bool :=
  if (alookup s.teams team_name).isSome then
    (s, false)
  else
    ({ s with
        teams := s.teams ++ [(team_name, { name := team_name })],
        team_order := s.team_order ++ [team_name] }, true)

/-- `ICPCSystem::submit`; `false` is the UnknownTeam error. -/
def submit (s : ICPCSystem) (team_name problem_name status : String)
    (time : Nat) : ICPCSystem × Bool :=
  match alookup s.teams team_name with
  | none => (s, false)
  | some _ =>
    let sub : Submission :=
      { team_name := team_name, problem_name := problem_name,
        status := status, time := time }
    ({ s with
        all_submissions := s.all_submissions ++ [sub],
        teams := updateTeam s.teams team_name (fun t => update_team_stats t sub) },
      true)

/-- `ICPCSystem::flush_scoreboard`. -/
def flush_scoreboard (s : ICPCSystem) : ICPCSystem :=
  update_scoreboard s

/-- `ICPCSystem::freeze`; `false` is the AlreadyFrozen error. -/
def freeze (s : ICPCSystem) : ICPCSystem × Bool :=
  if s.is_frozen then (s, false) else ({ s with is_frozen := true }, true)

/-- The scoreboard-printing loop at the end of `scroll`: one line
`(name, rank, solved, penalty)` per team, ranks starting at `i + 1`. -/
def standingsLines (s : ICPCSystem) : List String → Nat → List (String × Nat × Nat × Nat)
  | [], _ => []
  | n :: rest, i =>
    let t := getTeam s n
    (t.name, i + 1, t.solved_problems, t.penalty_time) :: standingsLines s rest (i + 1)

/-- `ICPCSystem::scroll`; `none` is the NotFrozen error, `some lines` the
printed standings. -/
def scroll (s : ICPCSystem) : ICPCSystem × Option (List (String × Nat × Nat × Nat)) :=
  if s.is_frozen = false then
    (s, none)
  else
    let s' := update_scoreboard { s with is_frozen := false }
    (s', some (standingsLines s' s'.team_order 0))

inductive RankRes where
  | unknownTeam : RankRes
  | found : Bool → Nat → RankRes
  | notFound : Bool → RankRes
deriving DecidableEq, Repr

/-- The ranking-search loop inside `query_ranking`, starting the counter
at `r`. -/
def findRank : List String → String → Nat → Option Nat
  | [], _, _ => none
  | t :: rest, name, r => if t = name then some r else findRank rest name (r + 1)

/-- `ICPCSystem::query_ranking`; the `Bool` carried by `found`/`notFound`
is whether the staleness warning was printed (i.e. the freeze flag). -/
def query_ranking (s : ICPCSystem) (team_name : String) : ICPCSystem × RankRes :=
  if (alookup s.teams team_name).isNone then
    (s, RankRes.unknownTeam)
  else
    match findRank s.team_order team_name 1 with
    | some r => (s, RankRes.found s.is_frozen r)
    | none => (s, RankRes.notFound s.is_frozen)

inductive SubQueryRes where
  | unknownTeam : SubQueryRes
  | found : Submission → SubQueryRes
  | noneFound : SubQueryRes
deriving DecidableEq, Repr

/-- Does a submission pass the two filters of `query_submission`? -/
def subMatches (problem_name status : String) (sub : Submission) : Bool :=
  (problem_name == "ALL" || sub.problem_name == problem_name) &&
    (status == "ALL" || sub.status == status)

/-- The reverse-iterator loop of `query_submission`: scan from the most
recently appended submission backwards, return the first match. -/
def findLastMatching (problem_name status : String) : List Submission → Option Submission
  | [] => none
  | sub :: rest =>
    match findLastMatching problem_name status rest with
    | some r => some r
    | none => if subMatches problem_name status sub then some sub else none

/-- `ICPCSystem::query_submission`. -/
def query_submission (s : ICPCSystem) (team_name problem_name status : String) :
    ICPCSystem × SubQueryRes :=
  match alookup s.teams team_name with
  | none => (s, SubQueryRes.unknownTeam)
  | some t =>
    match findLastMatching problem_name status t.submissions with
    | some sub => (s, SubQueryRes.found sub)
    | none => (s, SubQueryRes.noneFound)

/-- One input command, as dispatched by `main`. -/
inductive Cmd where
  | start : Nat → Cmd
  | addTeam : String → Cmd
  | submit : String → String → String → Nat → Cmd
  | flush : Cmd
  | freeze : Cmd
  | scroll : Cmd
  | queryRank : String → Cmd
  | querySub : String → String → String → Cmd
deriving DecidableEq, Repr

/-- The state transition of one command. -/
def step (s : ICPCSystem) : Cmd → ICPCSystem
  | Cmd.start d => start s d
  | Cmd.addTeam n => (add_team s n).1
  | Cmd.submit t p st time => (submit s t p st time).1
  | Cmd.flush => flush_scoreboard s
  | Cmd.freeze => (freeze s).1
  | Cmd.scroll => (scroll s).1
  | Cmd.queryRank n => (query_ranking s n).1
  | Cmd.querySub n p st => (query_submission s n p st).1

/-- The freshly constructed system. -/
def initSys : ICPCSystem := {}

/-- States reachable from the initial system by some command sequence. -/
inductive Reachable : ICPCSystem → Prop where
  | base : Reachable initSys
  | next {s : ICPCSystem} : Reachable s → ∀ c : Cmd, Reachable (step s c)

/-! ## Association-list lemmas -/

theorem alookup_append_left {α : Type} {l₁ : List (String × α)} {k : String}
    {v : α} (h : alookup l₁ k = some v) (l₂ : List (String × α)) :
    alookup (l₁ ++ l₂) k = some v := by
  induction l₁ with
  | nil => simp [alookup] at h
  | cons p rest ih =>
    obtain ⟨k', v'⟩ := p
    by_cases hk : k' = k <;> simp_all [alookup]

theorem alookup_append_right {α : Type} {l₁ : List (String × α)} {k : String}
    (h : alookup l₁ k = none) (l₂ : List (String × α)) :
    alookup (l₁ ++ l₂) k = alookup l₂ k := by
  induction l₁ with
  | nil => simp [alookup]
  | cons p rest ih =>
    obtain ⟨k', v'⟩ := p
    by_cases hk : k' = k <;> simp_all [alookup]

theorem alookup_eq_none_iff {α : Type} {l : List (String × α)} {k : String} :
    alookup l k = none ↔ k ∉ l.map Prod.fst := by
  induction l with
  | nil => simp [alookup]
  | cons p rest ih =>
    obtain ⟨k', v'⟩ := p
    by_cases hk : k' = k
    · subst hk; simp [alookup]
    · simp [alookup, hk, ih, Ne.symm hk]

theorem alookup_isSome_iff {α : Type} {l : List (String × α)} {k : String} :
    (alookup l k).isSome ↔ k ∈ l.map Prod.fst := by
  rw [Option.isSome_iff_ne_none, ne_eq, alookup_eq_none_iff, not_not]

theorem alookup_updateTeam_self (l : List (String × Team)) (k : String)
    (f : Team → Team) :
    alookup (updateTeam l k f) k = (alookup l k).map f := by
  induction l with
  | nil => simp [updateTeam, alookup]
  | cons p rest ih =>
    obtain ⟨k', v'⟩ := p
    by_cases hk : k' = k <;> simp_all [updateTeam, alookup]

theorem alookup_updateTeam_ne (l : List (String × Team)) (k k' : String)
    (f : Team → Team) (h : k' ≠ k) :
    alookup (updateTeam l k f) k' = alookup l k' := by
  induction l with
  | nil => simp [updateTeam, alookup]
  | cons p rest ih =>
    obtain ⟨k₁, v₁⟩ := p
    by_cases h₁ : k₁ = k
    · subst h₁
      simp [updateTeam, alookup, Ne.symm h, ih]
    · by_cases h₂ : k₁ = k' <;> simp_all [updateTeam, alookup]

theorem updateTeam_map_fst (l : List (String × Team)) (k : String)
    (f : Team → Team) :
    (updateTeam l k f).map Prod.fst = l.map Prod.fst := by
  induction l with
  | nil => simp [updateTeam]
  | cons p rest ih =>
    obtain ⟨k₁, v₁⟩ := p
    by_cases h₁ : k₁ = k <;> simp_all [updateTeam]

theorem lookupD_bumpCount_self (l : List (String × Nat)) (k : String) :
    lookupD (bumpCount l k) k = lookupD l k + 1 := by
  induction l with
  | nil => simp [bumpCount, lookupD, alookup]
  | cons p rest ih =>
    obtain ⟨k', v'⟩ := p
    by_cases hk : k' = k <;> simp_all [bumpCount, lookupD, alookup]

theorem lookupD_bumpCount_ne (l : List (String × Nat)) (k k' : String)
    (h : k' ≠ k) :
    lookupD (bumpCount l k) k' = lookupD l k' := by
  induction l with
  | nil => simp [bumpCount, lookupD, alookup, Ne.symm h]
  | cons p rest ih =>
    obtain ⟨k₁, v₁⟩ := p
    by_cases h₁ : k₁ = k
    · subst h₁
      simp [bumpCount, lookupD, alookup, Ne.symm h]
    · by_cases h₂ : k₁ = k' <;> simp_all [bumpCount, lookupD, alookup]

theorem lookupD_touchKey (l : List (String × Nat)) (k k' : String) :
    lookupD (touchKey l k) k' = lookupD l k' := by
  induction l with
  | nil =>
    by_cases hk : k = k' <;> simp [touchKey, lookupD, alookup, hk]
  | cons p rest ih =>
    obtain ⟨k₁, v₁⟩ := p
    by_cases h₁ : k₁ = k
    · subst h₁; simp [touchKey, lookupD, alookup]
    · by_cases h₂ : k₁ = k' <;> simp_all [touchKey, lookupD, alookup]

/-! ## Lemmas about the solve-time comparison loop -/

theorem cmpTimes_nil_left (ys : List Nat) : cmpTimes [] ys = none := by
  cases ys <;> rfl

theorem cmpTimes_nil_right (xs : List Nat) : cmpTimes xs [] = none := by
  cases xs <;> rfl

theorem cmpTimes_symm : ∀ (xs ys : List Nat),
    cmpTimes ys xs = (cmpTimes xs ys).map (fun r => !r)
  | [], ys => by simp [cmpTimes_nil_left, cmpTimes_nil_right]
  | x :: xs, [] => by simp [cmpTimes_nil_left, cmpTimes_nil_right]
  | x :: xs, y :: ys => by
    by_cases hxy : x = y
    · subst hxy; simpa [cmpTimes] using cmpTimes_symm xs ys
    · have h1 : ¬ (y = x) := Ne.symm hxy
      by_cases hlt : x < y
      · have h2 : ¬ (y < x) := by omega
        simp [cmpTimes, hxy, h1, hlt, h2]
      · have h2 : y < x := by omega
        simp [cmpTimes, hxy, h1, hlt, h2]

theorem cmpTimes_none_iff : ∀ {xs ys : List Nat}, xs.length = ys.length →
    (cmpTimes xs ys = none ↔ xs = ys)
  | [], [], _ => by simp [cmpTimes]
  | [], y :: ys, h => by simp at h
  | x :: xs, [], h => by simp at h
  | x :: xs, y :: ys, h => by
    by_cases hxy : x = y
    · subst hxy
      have := @cmpTimes_none_iff xs ys (by simpa using h)
      simpa [cmpTimes] using this
    · simp [cmpTimes, hxy]

theorem cmpTimes_trans : ∀ {xs ys zs : List Nat},
    cmpTimes xs ys = some true → cmpTimes ys zs = some true →
    cmpTimes xs zs = some true
  | [], ys, zs, h₁, _ => by simp [cmpTimes_nil_left] at h₁
  | x :: xs, [], zs, h₁, _ => by simp [cmpTimes_nil_right] at h₁
  | x :: xs, y :: ys, [], _, h₂ => by simp [cmpTimes_nil_right] at h₂
  | x :: xs, y :: ys, z :: zs, h₁, h₂ => by
    by_cases hxy : x = y <;> by_cases hyz : y = z
    · subst hxy; subst hyz
      simp only [cmpTimes, if_pos rfl] at h₁ h₂ ⊢
      exact cmpTimes_trans h₁ h₂
    · subst hxy
      simp only [cmpTimes, if_pos rfl, if_neg hyz] at h₂ ⊢
      have hlt : x < z := by
        simp at h₂; omega
      simp [cmpTimes, show x ≠ z by omega, hlt]
    · subst hyz
      simp only [cmpTimes, if_neg hxy] at h₁
      have hlt : x < y := by simp at h₁; omega
      simp [cmpTimes, show x ≠ y from hxy, hlt]
    · simp only [cmpTimes, if_neg hxy] at h₁
      simp only [cmpTimes, if_neg hyz] at h₂
      have hlt1 : x < y := by simp at h₁; omega
      have hlt2 : y < z := by simp at h₂; omega
      simp [cmpTimes, show x ≠ z by omega, show x < z by omega]

/-! ## The standings comparator -/

theorem compare_teams_true_iff (s : ICPCSystem) (a b : String) :
    compare_teams s a b = true ↔
      ((getTeam s b).solved_problems < (getTeam s a).solved_problems) ∨
      ((getTeam s a).solved_problems = (getTeam s b).solved_problems ∧
        (getTeam s a).penalty_time < (getTeam s b).penalty_time) ∨
      ((getTeam s a).solved_problems = (getTeam s b).solved_problems ∧
        (getTeam s a).penalty_time = (getTeam s b).penalty_time ∧
        cmpTimes (getTeam s a).solve_times (getTeam s b).solve_times = some true) ∨
      ((getTeam s a).solved_problems = (getTeam s b).solved_problems ∧
        (getTeam s a).penalty_time = (getTeam s b).penalty_time ∧
        cmpTimes (getTeam s a).solve_times (getTeam s b).solve_times = none ∧
        a < b) := by
  unfold compare_teams
  by_cases h1 : (getTeam s a).solved_problems = (getTeam s b).solved_problems
  · by_cases h2 : (getTeam s a).penalty_time = (getTeam s b).penalty_time
    · rcases hcmp : cmpTimes (getTeam s a).solve_times (getTeam s b).solve_times
        with _ | r
      · simp [h1, h2, hcmp, lt_irrefl]
      · rcases r <;> simp [h1, h2, hcmp, lt_irrefl]
    · simp [h1, h2, lt_irrefl]
  · simp [h1, lt_irrefl]

theorem compare_teams_true_iff_not {s : ICPCSystem} {a b : String} (hab : a ≠ b) :
    compare_teams s a b = true ↔ compare_teams s b a = false := by
  rw [Bool.eq_false_iff, ne_eq, compare_teams_true_iff s a b,
    compare_teams_true_iff s b a]
  constructor
  · rintro (h | ⟨he, h⟩ | ⟨he, hp, h⟩ | ⟨he, hp, h, hs⟩) <;>
      rintro (h' | ⟨he', h'⟩ | ⟨he', hp', h'⟩ | ⟨he', hp', h', hs'⟩) <;>
      try omega
    · rw [cmpTimes_symm, h] at h'
      simp at h'
    · rw [cmpTimes_symm, h] at h'
      simp at h'
    · rw [cmpTimes_symm, h] at h'
      simp at h'
    · exact absurd hs' (lt_asymm hs)
  · intro hnot
    rcases Nat.lt_trichotomy (getTeam s a).solved_problems
      (getTeam s b).solved_problems with hlt | heq | hgt
    · exact absurd (Or.inl hlt) hnot
    · rcases Nat.lt_trichotomy (getTeam s a).penalty_time
        (getTeam s b).penalty_time with plt | peq | pgt
      · exact Or.inr (Or.inl ⟨heq, plt⟩)
      · rcases hcmp : cmpTimes (getTeam s a).solve_times (getTeam s b).solve_times
          with _ | r
        · rcases lt_or_gt_of_ne hab with hs | hs
          · exact Or.inr (Or.inr (Or.inr ⟨heq, peq, rfl, hs⟩))
          · have hcmp' : cmpTimes (getTeam s b).solve_times
                (getTeam s a).solve_times = none := by
              rw [cmpTimes_symm, hcmp]; rfl
            exact absurd (Or.inr (Or.inr (Or.inr ⟨heq.symm, peq.symm, hcmp', hs⟩)))
              hnot
        · rcases r with _ | _
          · have hcmp' : cmpTimes (getTeam s b).solve_times
                (getTeam s a).solve_times = some true := by
              rw [cmpTimes_symm, hcmp]; rfl
            exact absurd (Or.inr (Or.inr (Or.inl ⟨heq.symm, peq.symm, hcmp'⟩))) hnot
          · exact Or.inr (Or.inr (Or.inl ⟨heq, peq, rfl⟩))
      · exact absurd (Or.inr (Or.inl ⟨heq.symm, pgt⟩)) hnot
    · exact Or.inl hgt

theorem compare_teams_trans {s : ICPCSystem} {a b c : String}
    (hA : (getTeam s a).solve_times.length = (getTeam s a).solved_problems)
    (hB : (getTeam s b).solve_times.length = (getTeam s b).solved_problems)
    (hC : (getTeam s c).solve_times.length = (getTeam s c).solved_problems)
    (h₁ : compare_teams s a b = true) (h₂ : compare_teams s b c = true) :
    compare_teams s a c = true := by
  rw [compare_teams_true_iff] at h₁ h₂ ⊢
  rcases h₁ with h | ⟨he, h⟩ | ⟨he, hp, h⟩ | ⟨he, hp, h, hs⟩ <;>
    rcases h₂ with h' | ⟨he', h'⟩ | ⟨he', hp', h'⟩ | ⟨he', hp', h', hs'⟩
  · exact Or.inl (by omega)
  · exact Or.inl (by omega)
  · exact Or.inl (by omega)
  · exact Or.inl (by omega)
  · exact Or.inl (by omega)
  · exact Or.inr (Or.inl ⟨by omega, by omega⟩)
  · exact Or.inr (Or.inl ⟨by omega, by omega⟩)
  · exact Or.inr (Or.inl ⟨by omega, by omega⟩)
  · exact Or.inl (by omega)
  · exact Or.inr (Or.inl ⟨by omega, by omega⟩)
  · exact Or.inr (Or.inr (Or.inl ⟨by omega, by omega, cmpTimes_trans h h'⟩))
  · have hlen : (getTeam s b).solve_times.length =
        (getTeam s c).solve_times.length := by omega
    have heq2 : (getTeam s b).solve_times = (getTeam s c).solve_times :=
      (cmpTimes_none_iff hlen).mp h'
    exact Or.inr (Or.inr (Or.inl ⟨by omega, by omega, heq2 ▸ h⟩))
  · exact Or.inl (by omega)
  · exact Or.inr (Or.inl ⟨by omega, by omega⟩)
  · have hlen : (getTeam s a).solve_times.length =
        (getTeam s b).solve_times.length := by omega
    have heq2 : (getTeam s a).solve_times = (getTeam s b).solve_times :=
      (cmpTimes_none_iff hlen).mp h
    exact Or.inr (Or.inr (Or.inl ⟨by omega, by omega, heq2 ▸ h'⟩))
  · have hlen1 : (getTeam s a).solve_times.length =
        (getTeam s b).solve_times.length := by omega
    have hlen2 : (getTeam s b).solve_times.length =
        (getTeam s c).solve_times.length := by omega
    have heqab : (getTeam s a).solve_times = (getTeam s b).solve_times :=
      (cmpTimes_none_iff hlen1).mp h
    have heqbc : (getTeam s b).solve_times = (getTeam s c).solve_times :=
      (cmpTimes_none_iff hlen2).mp h'
    exact Or.inr (Or.inr (Or.inr
      ⟨by omega, by omega, by rw [heqab, heqbc]; exact (cmpTimes_none_iff rfl).mpr rfl,
        lt_trans hs hs'⟩))

/-! ## Sortedness of insertion sort under local totality/transitivity -/

theorem pairwise_orderedInsert {α : Type} {r : α → α → Prop} [DecidableRel r]
    (a : α) (l : List α)
    (htr : ∀ x ∈ a :: l, ∀ y ∈ a :: l, ∀ z ∈ a :: l, r x y → r y z → r x z)
    (htot : ∀ x ∈ a :: l, ∀ y ∈ a :: l, x ≠ y → r x y ∨ r y x)
    (hl : l.Pairwise r) (ha : a ∉ l) :
    (l.orderedInsert r a).Pairwise r := by
  induction l with
  | nil => simp
  | cons b l ih =>
    rw [List.pairwise_cons] at hl
    obtain ⟨hb, hl⟩ := hl
    by_cases hr : r a b
    · rw [List.orderedInsert, if_pos hr]
      refine List.Pairwise.cons ?_ (List.Pairwise.cons hb hl)
      intro y hy
      rcases List.mem_cons.mp hy with rfl | hy
      · exact hr
      · exact htr a (by simp) b (by simp) y (by simp [hy]) hr (hb y hy)
    · rw [List.orderedInsert, if_neg hr]
      have hab : a ≠ b := by
        intro h
        exact ha (h ▸ List.mem_cons_self b l)
      have hba : r b a := (htot a (by simp) b (by simp) hab).resolve_left hr
      have hsub : ∀ x, x ∈ a :: l → x ∈ a :: b :: l := by
        intro x hx
        rcases List.mem_cons.mp hx with rfl | hx
        · exact List.mem_cons_self _ _
        · exact List.mem_cons_of_mem _ (List.mem_cons_of_mem _ hx)
      refine List.Pairwise.cons ?_ ?_
      · intro y hy
        rcases (List.mem_orderedInsert r).mp hy with rfl | hy
        · exact hba
        · exact hb y hy
      · exact ih
          (fun x hx y hy z hz => htr x (hsub x hx) y (hsub y hy) z (hsub z hz))
          (fun x hx y hy => htot x (hsub x hx) y (hsub y hy))
          hl (fun h => ha (List.mem_cons_of_mem _ h))

theorem pairwise_insertionSort {α : Type} {r : α → α → Prop} [DecidableRel r]
    (l : List α)
    (htr : ∀ x ∈ l, ∀ y ∈ l, ∀ z ∈ l, r x y → r y z → r x z)
    (htot : ∀ x ∈ l, ∀ y ∈ l, x ≠ y → r x y ∨ r y x)
    (h : l.Nodup) : (List.insertionSort r l).Pairwise r := by
  induction l with
  | nil => simp
  | cons a l ih =>
    rw [List.insertionSort]
    obtain ⟨hna, hnd⟩ := List.nodup_cons.mp h
    have hmem : ∀ x, x ∈ a :: List.insertionSort r l → x ∈ a :: l := by
      intro x hx
      rcases List.mem_cons.mp hx with rfl | hx
      · exact List.mem_cons_self _ _
      · exact List.mem_cons_of_mem _ ((List.mem_insertionSort r).mp hx)
    have hsub : ∀ x, x ∈ l → x ∈ a :: l := fun x hx => List.mem_cons_of_mem _ hx
    refine pairwise_orderedInsert a (List.insertionSort r l)
      (fun x hx y hy z hz => htr x (hmem x hx) y (hmem y hy) z (hmem z hz))
      (fun x hx y hy => htot x (hmem x hx) y (hmem y hy))
      ?_ ?_
    · exact ih
        (fun x hx y hy z hz => htr x (hsub x hx) y (hsub y hy) z (hsub z hz))
        (fun x hx y hy => htot x (hsub x hx) y (hsub y hy))
        hnd
    · intro hx
      exact hna ((List.mem_insertionSort r).mp hx)

/-! ## The ranking-search loop -/

theorem findRank_spec : ∀ (l : List String) (n : String), n ∈ l → ∀ (k : Nat),
    ∃ pre post, l = pre ++ n :: post ∧ n ∉ pre ∧
      findRank l n k = some (k + pre.length)
  | [], n, h, _ => absurd h (List.not_mem_nil n)
  | t :: rest, n, h, k => by
    by_cases ht : t = n
    · subst ht
      exact ⟨[], rest, rfl, by simp, by simp [findRank]⟩
    · have hmem : n ∈ rest := by
        rcases List.mem_cons.mp h with rfl | hm
        · exact absurd rfl ht
        · exact hm
      obtain ⟨pre, post, hsplit, hpre, hfind⟩ := findRank_spec rest n hmem (k + 1)
      refine ⟨t :: pre, post, by simp [hsplit], ?_, ?_⟩
      · intro hn
        rcases List.mem_cons.mp hn with rfl | hn
        · exact ht rfl
        · exact hpre hn
      · rw [findRank, if_neg ht, hfind]
        simp only [Option.some.injEq, List.length_cons]
        omega

theorem findRank_eq_none {l : List String} {n : String} (h : n ∉ l) :
    ∀ k, findRank l n k = none := by
  induction l with
  | nil => intro k; rfl
  | cons t rest ih =>
    intro k
    have hne : t ≠ n := fun he => h (he ▸ List.mem_cons_self t rest)
    rw [findRank, if_neg hne]
    exact ih (fun hm => h (List.mem_cons_of_mem t hm)) (k + 1)

/-! ## The scoreboard-printing loop -/

theorem standingsLines_length (s : ICPCSystem) : ∀ (l : List String) (i : Nat),
    (standingsLines s l i).length = l.length
  | [], _ => rfl
  | n :: rest, i => by
    simp [standingsLines, standingsLines_length s rest (i + 1)]

theorem standingsLines_get (s : ICPCSystem) : ∀ (l : List String) (k i : Nat)
    (h : i < (standingsLines s l k).length) (h' : i < l.length),
    (standingsLines s l k).get ⟨i, h⟩ =
      ((getTeam s (l.get ⟨i, h'⟩)).name, k + i + 1,
        (getTeam s (l.get ⟨i, h'⟩)).solved_problems,
        (getTeam s (l.get ⟨i, h'⟩)).penalty_time)
  | [], k, i, h, h' => by simp at h'
  | n :: rest, k, 0, h, h' => by simp [standingsLines]
  | n :: rest, k, i + 1, h, h' => by
    have hh : i < (standingsLines s rest (k + 1)).length := by
      rw [standingsLines_length]
      simpa using h'
    have harith : k + 1 + i + 1 = k + (i + 1) + 1 := by omega
    calc (standingsLines s (n :: rest) k).get ⟨i + 1, h⟩
        = (standingsLines s rest (k + 1)).get ⟨i, hh⟩ := rfl
      _ = _ := by
          rw [standingsLines_get s rest (k + 1) i hh (by simpa using h'), harith]
          rfl

theorem standingsLines_map_fst (s : ICPCSystem) : ∀ (l : List String) (i : Nat),
    (∀ n ∈ l, (getTeam s n).name = n) →
    (standingsLines s l i).map Prod.fst = l
  | [], _, _ => rfl
  | n :: rest, i, h => by
    rw [standingsLines]
    simp only [List.map_cons]
    rw [h n (List.mem_cons_self n rest),
      standingsLines_map_fst s rest (i + 1)
        (fun m hm => h m (List.mem_cons_of_mem n hm))]

/-! ## The submission-query loop -/

theorem findLastMatching_eq (p st : String) : ∀ (l : List Submission),
    findLastMatching p st l = l.reverse.find? (subMatches p st)
  | [] => rfl
  | sub :: rest => by
    rw [findLastMatching, findLastMatching_eq p st rest, List.reverse_cons,
      List.find?_append]
    cases h : rest.reverse.find? (subMatches p st) with
    | none =>
      cases hm : subMatches p st sub <;> simp [List.find?, hm]
    | some r => simp

/-! ## Case equations for `update_team_stats` -/

theorem update_team_stats_accept_first {t : Team} {sub : Submission}
    (hst : sub.status = "Accepted")
    (hac : alookup t.first_ac_time sub.problem_name = none) :
    update_team_stats t sub =
      { name := t.name,
        solved_problems := t.solved_problems + 1,
        penalty_time := t.penalty_time +
          (20 * lookupD t.wrong_submissions sub.problem_name + sub.time),
        wrong_submissions := touchKey t.wrong_submissions sub.problem_name,
        first_ac_time := t.first_ac_time ++ [(sub.problem_name, sub.time)],
        solve_times := sortDesc (t.solve_times ++ [sub.time]),
        submissions := t.submissions ++ [sub] } := by
  simp [update_team_stats, hst, hac]

theorem update_team_stats_accept_again {t : Team} {sub : Submission} {x : Nat}
    (hst : sub.status = "Accepted")
    (hac : alookup t.first_ac_time sub.problem_name = some x) :
    update_team_stats t sub = { t with submissions := t.submissions ++ [sub] } := by
  simp [update_team_stats, hst, hac]

theorem update_team_stats_reject {t : Team} {sub : Submission}
    (hst : sub.status ≠ "Accepted") :
    update_team_stats t sub =
      { t with
        submissions := t.submissions ++ [sub],
        wrong_submissions := bumpCount t.wrong_submissions sub.problem_name } := by
  simp [update_team_stats, hst]

/-! ## Reachable-state invariants -/

/-- The per-team ledger invariant: the stored name is the key, the solved
count agrees with both the first-acceptance map and the solve-time
collection, the solve times are sorted descending, and no problem has two
first-acceptance entries. -/
def TeamInv (n : String) (t : Team) : Prop :=
  t.name = n ∧
  t.solved_problems = t.first_ac_time.length ∧
  t.solved_problems = t.solve_times.length ∧
  t.solve_times.Sorted (· ≥ ·) ∧
  (t.first_ac_time.map Prod.fst).Nodup

/-- The system invariant: team keys are distinct, the visible order is a
permutation of the registered team names, and each ledger satisfies
`TeamInv`. -/
def SysInv (s : ICPCSystem) : Prop :=
  (s.teams.map Prod.fst).Nodup ∧
  s.team_order.Perm (s.teams.map Prod.fst) ∧
  ∀ n t, alookup s.teams n = some t → TeamInv n t

theorem teamInv_update_team_stats {n : String} {t : Team} (h : TeamInv n t)
    (sub : Submission) : TeamInv n (update_team_stats t sub) := by
  obtain ⟨hn, h1, h2, h3, h4⟩ := h
  by_cases hst : sub.status = "Accepted"
  · cases hac : alookup t.first_ac_time sub.problem_name with
    | none =>
      rw [update_team_stats_accept_first hst hac]
      refine ⟨hn, ?_, ?_, ?_, ?_⟩
      · simp [h1]
      · simp [h2, sortDesc, List.length_insertionSort]
      · haveI : IsTotal Nat (· ≥ ·) := ⟨fun a b => le_total b a⟩
        haveI : IsTrans Nat (· ≥ ·) := ⟨fun _ _ _ hab hbc => le_trans hbc hab⟩
        exact List.sorted_insertionSort _ _
      · have hnm : sub.problem_name ∉ t.first_ac_time.map Prod.fst :=
          alookup_eq_none_iff.mp hac
        simp [List.nodup_append, h4, hnm]
    | some x =>
      rw [update_team_stats_accept_again hst hac]
      exact ⟨hn, h1, h2, h3, h4⟩
  · rw [update_team_stats_reject hst]
    exact ⟨hn, h1, h2, h3, h4⟩

theorem query_ranking_fst (s : ICPCSystem) (n : String) :
    (query_ranking s n).1 = s := by
  unfold query_ranking
  by_cases h : (alookup s.teams n).isNone
  · rw [if_pos h]
  · rw [if_neg h]
    cases findRank s.team_order n 1 <;> rfl

theorem query_submission_fst (s : ICPCSystem) (n p st : String) :
    (query_submission s n p st).1 = s := by
  unfold query_submission
  cases hm : alookup s.teams n with
  | none => rfl
  | some t =>
    cases hf : findLastMatching p st t.submissions <;> simp [hf]

theorem step_teams_eq (s : ICPCSystem) :
    ∀ c : Cmd, (∀ m, c ≠ Cmd.addTeam m) → (∀ a b d e, c ≠ Cmd.submit a b d e) →
    (step s c).teams = s.teams
  | Cmd.start _, _, _ => rfl
  | Cmd.addTeam m, h, _ => absurd rfl (h m)
  | Cmd.submit a b d e, _, h => absurd rfl (h a b d e)
  | Cmd.flush, _, _ => rfl
  | Cmd.freeze, _, _ => by
    show (freeze s).1.teams = s.teams
    unfold freeze
    by_cases h : s.is_frozen <;> simp [h]
  | Cmd.scroll, _, _ => by
    show (scroll s).1.teams = s.teams
    unfold scroll
    by_cases h : s.is_frozen = false <;> simp [h, update_scoreboard]
  | Cmd.queryRank n, _, _ => by
    show (query_ranking s n).1.teams = s.teams
    rw [query_ranking_fst]
  | Cmd.querySub n p st, _, _ => by
    show (query_submission s n p st).1.teams = s.teams
    rw [query_submission_fst]

theorem sysInv_step {s : ICPCSystem} (hinv : SysInv s) (c : Cmd) :
    SysInv (step s c) := by
  obtain ⟨hnd, hperm, hteams⟩ := hinv
  cases c with
  | start d => exact ⟨hnd, hperm, hteams⟩
  | addTeam m =>
    show SysInv (add_team s m).1
    by_cases hdup : (alookup s.teams m).isSome
    · simp only [add_team, if_pos hdup]
      exact ⟨hnd, hperm, hteams⟩
    · simp only [add_team, if_neg hdup]
      have hnm : m ∉ s.teams.map Prod.fst := by
        rw [← alookup_eq_none_iff]
        rcases h : alookup s.teams m with _ | v
        · rfl
        · rw [h] at hdup
          simp at hdup
      refine ⟨?_, ?_, ?_⟩
      · simp only [List.map_append, List.map_cons, List.map_nil]
        rw [List.nodup_append]
        refine ⟨hnd, List.nodup_singleton m, ?_⟩
        intro x hx hx'
        rcases List.mem_singleton.mp hx' with rfl
        exact hnm hx
      · simp only [List.map_append, List.map_cons, List.map_nil]
        exact hperm.append (List.Perm.refl [m])
      · intro n t h
        rcases halookup : alookup s.teams n with _ | v
        · rw [alookup_append_right halookup] at h
          simp only [alookup] at h
          by_cases hmn : m = n
          · rw [if_pos hmn] at h
            obtain rfl := Option.some.inj h
            subst hmn
            exact ⟨rfl, rfl, rfl, List.sorted_nil, List.nodup_nil⟩
          · rw [if_neg hmn] at h
            cases h
        · rw [alookup_append_left halookup] at h
          obtain rfl := Option.some.inj h
          exact hteams n v halookup
  | submit m p st time =>
    show SysInv (submit s m p st time).1
    rcases hm : alookup s.teams m with _ | t₀
    · simp only [submit, hm]
      exact ⟨hnd, hperm, hteams⟩
    · simp only [submit, hm]
      refine ⟨?_, ?_, ?_⟩
      · rw [updateTeam_map_fst]
        exact hnd
      · rw [updateTeam_map_fst]
        exact hperm
      · intro n t h
        by_cases hn : n = m
        · subst hn
          rw [alookup_updateTeam_self, hm] at h
          obtain rfl := Option.some.inj h
          exact teamInv_update_team_stats (hteams n t₀ hm) _
        · rw [alookup_updateTeam_ne _ _ _ _ hn] at h
          exact hteams n t h
  | flush =>
    show SysInv (update_scoreboard s)
    exact ⟨hnd, (List.perm_insertionSort _ _).trans hperm, hteams⟩
  | freeze =>
    show SysInv (freeze s).1
    unfold freeze
    by_cases h : s.is_frozen <;> simp only [h, if_true, if_false, Bool.false_eq_true] <;>
      exact ⟨hnd, hperm, hteams⟩
  | scroll =>
    show SysInv (scroll s).1
    unfold scroll
    by_cases h : s.is_frozen = false
    · simp only [h, if_true]
      exact ⟨hnd, hperm, hteams⟩
    · simp only [h, if_false]
      exact ⟨hnd, (List.perm_insertionSort _ _).trans hperm, hteams⟩
  | queryRank n =>
    show SysInv (query_ranking s n).1
    rw [query_ranking_fst]
    exact ⟨hnd, hperm, hteams⟩
  | querySub n p st =>
    show SysInv (query_submission s n p st).1
    rw [query_submission_fst]
    exact ⟨hnd, hperm, hteams⟩

theorem reachable_sysInv {s : ICPCSystem} (h : Reachable s) : SysInv s := by
  induction h with
  | base =>
    refine ⟨List.nodup_nil, List.Perm.refl _, ?_⟩
    intro n t h
    simp [alookup, initSys] at h
  | next hs c ih => exact sysInv_step ih c

theorem getTeam_eq {s : ICPCSystem} {n : String} {t : Team}
    (h : alookup s.teams n = some t) : getTeam s n = t := by
  simp [getTeam, h]

theorem sysInv_len {s : ICPCSystem} (hinv : SysInv s) {n : String}
    (h : (alookup s.teams n).isSome) :
    (getTeam s n).solve_times.length = (getTeam s n).solved_problems := by
  obtain ⟨t, ht⟩ := Option.isSome_iff_exists.mp h
  rw [getTeam_eq ht]
  exact ((hinv.2.2 n t ht).2.2.1).symm

theorem update_team_stats_mono (t : Team) (sub : Submission) :
    t.solved_problems ≤ (update_team_stats t sub).solved_problems ∧
    t.penalty_time ≤ (update_team_stats t sub).penalty_time ∧
    ∀ p x, alookup t.first_ac_time p = some x →
      alookup (update_team_stats t sub).first_ac_time p = some x := by
  by_cases hst : sub.status = "Accepted"
  · cases hac : alookup t.first_ac_time sub.problem_name with
    | none =>
      rw [update_team_stats_accept_first hst hac]
      exact ⟨Nat.le_succ _, Nat.le_add_right _ _,
        fun p x hx => alookup_append_left hx _⟩
    | some x =>
      rw [update_team_stats_accept_again hst hac]
      exact ⟨le_refl _, le_refl _, fun p x hx => hx⟩
  · rw [update_team_stats_reject hst]
    exact ⟨le_refl _, le_refl _, fun p x hx => hx⟩

theorem step_mono (s : ICPCSystem) (c : Cmd) {n : String} {t : Team}
    (h : alookup s.teams n = some t) :
    ∃ t', alookup (step s c).teams n = some t' ∧
      t.solved_problems ≤ t'.solved_problems ∧
      t.penalty_time ≤ t'.penalty_time ∧
      ∀ p x, alookup t.first_ac_time p = some x →
        alookup t'.first_ac_time p = some x := by
  cases c with
  | start d => exact ⟨t, h, le_refl _, le_refl _, fun p x hx => hx⟩
  | addTeam m =>
    refine ⟨t, ?_, le_refl _, le_refl _, fun p x hx => hx⟩
    show alookup (add_team s m).1.teams n = some t
    by_cases hdup : (alookup s.teams m).isSome
    · simp only [add_team, if_pos hdup]
      exact h
    · simp only [add_team, if_neg hdup]
      exact alookup_append_left h _
  | submit m p st time =>
    rcases hm : alookup s.teams m with _ | t₀
    · refine ⟨t, ?_, le_refl _, le_refl _, fun p' x hx => hx⟩
      show alookup (submit s m p st time).1.teams n = some t
      simp only [submit, hm]
      exact h
    · by_cases hn : n = m
      · subst hn
        rw [h] at hm
        obtain rfl := Option.some.inj hm
        refine ⟨update_team_stats t
            { team_name := n, problem_name := p, status := st, time := time }, ?_,
          (update_team_stats_mono t _).1, (update_team_stats_mono t _).2.1,
          (update_team_stats_mono t _).2.2⟩
        show alookup (submit s n p st time).1.teams n = some _
        simp only [submit, h]
        rw [alookup_updateTeam_self, h]
        rfl
      · refine ⟨t, ?_, le_refl _, le_refl _, fun p' x hx => hx⟩
        show alookup (submit s m p st time).1.teams n = some t
        simp only [submit, hm]
        rw [alookup_updateTeam_ne _ _ _ _ hn]
        exact h
  | flush => exact ⟨t, h, le_refl _, le_refl _, fun p x hx => hx⟩
  | freeze =>
    refine ⟨t, ?_, le_refl _, le_refl _, fun p x hx => hx⟩
    show alookup (freeze s).1.teams n = some t
    unfold freeze
    by_cases hf : s.is_frozen
    · rw [if_pos hf]
      exact h
    · rw [if_neg hf]
      exact h
  | scroll =>
    refine ⟨t, ?_, le_refl _, le_refl _, fun p x hx => hx⟩
    show alookup (scroll s).1.teams n = some t
    unfold scroll
    by_cases hf : s.is_frozen = false
    · rw [if_pos hf]
      exact h
    · rw [if_neg hf]
      exact h
  | queryRank m =>
    refine ⟨t, ?_, le_refl _, le_refl _, fun p x hx => hx⟩
    show alookup (query_ranking s m).1.teams n = some t
    rw [query_ranking_fst]
    exact h
  | querySub m p st =>
    refine ⟨t, ?_, le_refl _, le_refl _, fun p' x hx => hx⟩
    show alookup (query_submission s m p st).1.teams n = some t
    rw [query_submission_fst]
    exact h

theorem teams_set_frozen (s : ICPCSystem) (b' : Bool) :
    ({ s with is_frozen := b' } : ICPCSystem).teams = s.teams := rfl

theorem compare_teams_set_frozen (s : ICPCSystem) (b' : Bool) (a b : String) :
    compare_teams { s with is_frozen := b' } a b = compare_teams s a b := rfl

/-! ## Claims -/

/-- Claim C1: the first accepted submission for a (team, problem) pair adds
`20 * wrong_count + time` to the penalty, increments the solved count by one,
inserts the time into the solve-time collection keeping it sorted descending,
and records the first-acceptance time; any later submission for that pair
(of any status) leaves solved count, penalty and solve times unchanged. -/
theorem claim_C1_first_acceptance (t : Team) (sub : Submission) :
    (sub.status = "Accepted" →
      alookup t.first_ac_time sub.problem_name = none →
      (update_team_stats t sub).penalty_time =
        t.penalty_time +
          (20 * lookupD t.wrong_submissions sub.problem_name + sub.time) ∧
      (update_team_stats t sub).solved_problems = t.solved_problems + 1 ∧
      (update_team_stats t sub).solve_times.Perm (sub.time :: t.solve_times) ∧
      (update_team_stats t sub).solve_times.Sorted (· ≥ ·) ∧
      alookup (update_team_stats t sub).first_ac_time sub.problem_name =
        some sub.time) ∧
    (∀ x, alookup t.first_ac_time sub.problem_name = some x →
      (update_team_stats t sub).solved_problems = t.solved_problems ∧
      (update_team_stats t sub).penalty_time = t.penalty_time ∧
      (update_team_stats t sub).solve_times = t.solve_times) := by
  constructor
  · intro hst hac
    rw [update_team_stats_accept_first hst hac]
    refine ⟨rfl, rfl, ?_, ?_, ?_⟩
    · exact (List.perm_insertionSort _ _).trans (List.perm_append_singleton _ _)
    · haveI : IsTotal Nat (· ≥ ·) := ⟨fun a b => le_total b a⟩
      haveI : IsTrans Nat (· ≥ ·) := ⟨fun _ _ _ hab hbc => le_trans hbc hab⟩
      exact List.sorted_insertionSort _ _
    · show alookup (t.first_ac_time ++ [(sub.problem_name, sub.time)])
        sub.problem_name = some sub.time
      rw [alookup_append_right hac]
      simp [alookup]
  · intro x hac
    by_cases hst : sub.status = "Accepted"
    · rw [update_team_stats_accept_again hst hac]
      exact ⟨rfl, rfl, rfl⟩
    · rw [update_team_stats_reject hst]
      exact ⟨rfl, rfl, rfl⟩

theorem claim_C1_witness :
    ((update_team_stats
        { name := "X", solved_problems := 1, penalty_time := 30,
          wrong_submissions := [("p", 2)], first_ac_time := [("q", 30)],
          solve_times := [30], submissions := [] }
        { team_name := "X", problem_name := "p", status := "Accepted",
          time := 100 }).penalty_time = 170 ∧
      (update_team_stats
        { name := "X", solved_problems := 1, penalty_time := 30,
          wrong_submissions := [("p", 2)], first_ac_time := [("q", 30)],
          solve_times := [30], submissions := [] }
        { team_name := "X", problem_name := "p", status := "Accepted",
          time := 100 }).solved_problems = 2) ∧
    (update_team_stats
        { name := "X", solved_problems := 1, penalty_time := 30,
          wrong_submissions := [("p", 2)], first_ac_time := [("q", 30)],
          solve_times := [30], submissions := [] }
        { team_name := "X", problem_name := "q", status := "Wrong_Answer",
          time := 120 }).solve_times = [30] := by
  refine ⟨?_, ?_⟩
  · have h := (claim_C1_first_acceptance
      { name := "X", solved_problems := 1, penalty_time := 30,
        wrong_submissions := [("p", 2)], first_ac_time := [("q", 30)],
        solve_times := [30], submissions := [] }
      { team_name := "X", problem_name := "p", status := "Accepted",
        time := 100 }).1 rfl (by decide)
    exact ⟨h.1, h.2.1⟩
  · exact ((claim_C1_first_acceptance
      { name := "X", solved_problems := 1, penalty_time := 30,
        wrong_submissions := [("p", 2)], first_ac_time := [("q", 30)],
        solve_times := [30], submissions := [] }
      { team_name := "X", problem_name := "q", status := "Wrong_Answer",
        time := 120 }).2 30 (by decide)).2.2

/-- Claim C2: on reachable states, the standings comparator is a strict total
order over registered teams: for two distinct names exactly one ranks before
the other, and the relation is transitive. -/
theorem claim_C2_strict_total_order (s : ICPCSystem) (hs : Reachable s)
    (a b c : String)
    (ha : (alookup s.teams a).isSome) (hb : (alookup s.teams b).isSome)
    (hc : (alookup s.teams c).isSome) (hab : a ≠ b) :
    (compare_teams s a b = true ↔ compare_teams s b a = false) ∧
    (compare_teams s a b = true → compare_teams s b c = true →
      compare_teams s a c = true) := by
  have hinv := reachable_sysInv hs
  exact ⟨compare_teams_true_iff_not hab,
    fun h₁ h₂ => compare_teams_trans (sysInv_len hinv ha) (sysInv_len hinv hb)
      (sysInv_len hinv hc) h₁ h₂⟩

theorem claim_C2_witness :
    (compare_teams (step (step initSys (Cmd.addTeam "A")) (Cmd.addTeam "B"))
        "A" "B" = true ↔
      compare_teams (step (step initSys (Cmd.addTeam "A")) (Cmd.addTeam "B"))
        "B" "A" = false) ∧
    (compare_teams (step (step initSys (Cmd.addTeam "A")) (Cmd.addTeam "B"))
        "A" "B" = true →
      compare_teams (step (step initSys (Cmd.addTeam "A")) (Cmd.addTeam "B"))
        "B" "A" = true →
      compare_teams (step (step initSys (Cmd.addTeam "A")) (Cmd.addTeam "B"))
        "A" "A" = true) :=
  claim_C2_strict_total_order _
    (Reachable.next (Reachable.next Reachable.base (Cmd.addTeam "A"))
      (Cmd.addTeam "B"))
    "A" "B" "A" (by decide) (by decide) (by decide) (by decide)

/-- Claim C4: every failing operation leaves the whole state unchanged:
duplicate RegisterTeam, Submit for an unknown team, Freeze when frozen,
Scroll when not frozen. -/
theorem claim_C4_failed_ops_no_mutation (s : ICPCSystem) (n p st : String)
    (time : Nat) :
    ((alookup s.teams n).isSome → add_team s n = (s, false)) ∧
    (alookup s.teams n = none → submit s n p st time = (s, false)) ∧
    (s.is_frozen = true → freeze s = (s, false)) ∧
    (s.is_frozen = false → scroll s = (s, none)) := by
  refine ⟨?_, ?_, ?_, ?_⟩
  · intro h
    simp [add_team, h]
  · intro h
    simp [submit, h]
  · intro h
    simp [freeze, h]
  · intro h
    simp [scroll, h]

theorem claim_C4_witness :
    add_team (add_team initSys "A").1 "A" = ((add_team initSys "A").1, false) ∧
    submit initSys "B" "p" "Accepted" 1 = (initSys, false) ∧
    freeze (freeze initSys).1 = ((freeze initSys).1, false) ∧
    scroll initSys = (initSys, none) :=
  ⟨(claim_C4_failed_ops_no_mutation (add_team initSys "A").1 "A" "p" "x" 0).1
      (by decide),
    (claim_C4_failed_ops_no_mutation initSys "B" "p" "Accepted" 1).2.1 (by decide),
    (claim_C4_failed_ops_no_mutation (freeze initSys).1 "A" "p" "x" 0).2.2.1
      (by decide),
    (claim_C4_failed_ops_no_mutation initSys "A" "p" "x" 0).2.2.2 rfl⟩

/-- Claim C5 (counterexample): a successful RegisterTeam does change the
visible-order sequence — registering "A" in the initial state appends "A". -/
theorem claim_C5_counterexample :
    ¬ ((add_team initSys "A").1.team_order = initSys.team_order) := by
  decide

/-- Claim C5 (amended): the visible order is re-ordered only by Flush or
Scroll; a successful RegisterTeam appends the new name at the end (leaving
the existing entries in place); a failed RegisterTeam, Submit, Freeze,
QueryRank and QuerySubmission never change the visible order. -/
theorem claim_C5_visible_order_frame (s : ICPCSystem) (n p st : String)
    (time : Nat) :
    ((submit s n p st time).1.team_order = s.team_order) ∧
    ((freeze s).1.team_order = s.team_order) ∧
    ((query_ranking s n).1.team_order = s.team_order) ∧
    ((query_submission s n p st).1.team_order = s.team_order) ∧
    ((alookup s.teams n).isSome → (add_team s n).1.team_order = s.team_order) ∧
    ((alookup s.teams n).isNone →
      (add_team s n).1.team_order = s.team_order ++ [n]) := by
  refine ⟨?_, ?_, ?_, ?_, ?_, ?_⟩
  · rcases hm : alookup s.teams n with _ | t₀ <;> simp [submit, hm]
  · unfold freeze
    by_cases h : s.is_frozen <;> simp [h]
  · rw [query_ranking_fst]
  · rw [query_submission_fst]
  · intro h
    simp [add_team, h]
  · intro h
    have h' : ¬ (alookup s.teams n).isSome = true := by
      rcases hm : alookup s.teams n with _ | t₀
    

      · simp
      · rw [hm] at h
        simp at h
    simp [add_team, h']

theorem claim_C5_witness :
    (submit (add_team initSys "A").1 "A" "p" "Accepted" 1).1.team_order =
      (add_team initSys "A").1.team_order ∧
    (add_team (add_team initSys "A").1 "A").1.team_order =
      (add_team initSys "A").1.team_order ∧
    (add_team initSys "A").1.team_order = initSys.team_order ++ ["A"] :=
  ⟨(claim_C5_visible_order_frame (add_team initSys "A").1 "A" "p" "Accepted" 1).1,
    (claim_C5_visible_order_frame (add_team initSys "A").1 "A" "p" "x" 0).2.2.2.2.1
      (by decide),
    (claim_C5_visible_order_frame initSys "A" "p" "x" 0).2.2.2.2.2 (by decide)⟩

/-- Claim C6: every non-accepted submission increments the wrong-submission
counter of that (team, problem) pair by exactly one — also when the problem
is already solved — and leaves every other problem's counter and the solved
count, penalty and solve times unchanged. -/
theorem claim_C6_rejection_counter (t : Team) (sub : Submission)
    (h : sub.status ≠ "Accepted") :
    lookupD (update_team_stats t sub).wrong_submissions sub.problem_name =
      lookupD t.wrong_submissions sub.problem_name + 1 ∧
    (∀ p, p ≠ sub.problem_name →
      lookupD (update_team_stats t sub).wrong_submissions p =
        lookupD t.wrong_submissions p) ∧
    (update_team_stats t sub).solved_problems = t.solved_problems ∧
    (update_team_stats t sub).penalty_time = t.penalty_time ∧
    (update_team_stats t sub).solve_times = t.solve_times := by
  rw [update_team_stats_reject h]
  exact ⟨lookupD_bumpCount_self _ _, fun p hp => lookupD_bumpCount_ne _ _ _ hp,
    rfl, rfl, rfl⟩

theorem claim_C6_witness :
    lookupD (update_team_stats
        { name := "X", solved_problems := 1, penalty_time := 3,
          wrong_submissions := [("p", 1)], first_ac_time := [("p", 3)],
          solve_times := [3], submissions := [] }
        { team_name := "X", problem_name := "p", status := "Wrong_Answer",
          time := 7 }).wrong_submissions "p" = 2 ∧
    (update_team_stats
        { name := "X", solved_problems := 1, penalty_time := 3,
          wrong_submissions := [("p", 1)], first_ac_time := [("p", 3)],
          solve_times := [3], submissions := [] }
        { team_name := "X", problem_name := "p", status := "Wrong_Answer",
          time := 7 }).penalty_time = 3 := by
  have h := claim_C6_rejection_counter
    { name := "X", solved_problems := 1, penalty_time := 3,
      wrong_submissions := [("p", 1)], first_ac_time := [("p", 3)],
      solve_times := [3], submissions := [] }
    { team_name := "X", problem_name := "p", status := "Wrong_Answer",
      time := 7 } (by decide)
  exact ⟨h.1, h.2.2.2.1⟩

/-- Claim C7: QuerySubmission for a registered team returns the most recently
received submission passing both filters ("ALL" matches everything), or
reports no match; the answer does not depend on the freeze flag; for an
unregistered team it fails with UnknownTeam. -/
theorem claim_C7_query_submission (s : ICPCSystem) (n p st : String) :
    ((alookup s.teams n).isNone →
      query_submission s n p st = (s, SubQueryRes.unknownTeam)) ∧
    (∀ t, alookup s.teams n = some t →
      (query_submission s n p st).2 =
        (match t.submissions.reverse.find? (subMatches p st) with
          | some sub => SubQueryRes.found sub
          | none => SubQueryRes.noneFound)) ∧
    (∀ sub, subMatches p st sub = true ↔
      (p = "ALL" ∨ sub.problem_name = p) ∧ (st = "ALL" ∨ sub.status = st)) ∧
    (∀ b', query_submission { s with is_frozen := b' } n p st =
      ({ s with is_frozen := b' }, (query_submission s n p st).2)) := by
  refine ⟨?_, ?_, ?_, ?_⟩
  · intro h
    have h' : alookup s.teams n = none := Option.isNone_iff_eq_none.mp h
    simp [query_submission, h']
  · intro t ht
    rw [← findLastMatching_eq]
    cases hf : findLastMatching p st t.submissions <;>
      simp [query_submission, ht, hf]
  · intro sub
    simp [subMatches, Bool.and_eq_true, Bool.or_eq_true, beq_iff_eq]
  · intro b'
    unfold query_submission
    rw [teams_set_frozen]
    cases hm : alookup s.teams n with
    | none => rfl
    | some t => cases hf : findLastMatching p st t.submissions <;> simp [hf]

theorem claim_C7_witness :
    query_submission initSys "B" "ALL" "ALL" = (initSys, SubQueryRes.unknownTeam) ∧
    (query_submission (submit (add_team initSys "A").1 "A" "p" "Wrong_Answer" 3).1
        "A" "ALL" "ALL").2 =
      SubQueryRes.found
        { team_name := "A", problem_name := "p",
          status := "Wrong_Answer", time := 3 } := by
  constructor
  · exact (claim_C7_query_submission initSys "B" "ALL" "ALL").1 (by decide)
  · have h := (claim_C7_query_submission
      (submit (add_team initSys "A").1 "A" "p" "Wrong_Answer" 3).1
      "A" "ALL" "ALL").2.1
      { name := "A", wrong_submissions := [("p", 1)],
        submissions :=
          [{ team_name := "A", problem_name := "p",
             status := "Wrong_Answer", time := 3 }] } (by decide)
    rw [h]
    rfl

/-- Claim C8: QueryRank answers UnknownTeam for an unregistered team; for a
registered team it returns the 1-based position of that team in the visible
order, with the staleness warning attached exactly when the scoreboard is
frozen, and the rank answer is never suppressed; the query does not change
the state. -/
theorem claim_C8_query_ranking (s : ICPCSystem) (hs : Reachable s) (n : String) :
    ((alookup s.teams n).isNone →
      query_ranking s n = (s, RankRes.unknownTeam)) ∧
    ((alookup s.teams n).isSome →
      ∃ pre post, s.team_order = pre ++ n :: post ∧ n ∉ pre ∧
        query_ranking s n = (s, RankRes.found s.is_frozen (pre.length + 1))) ∧
    (query_ranking s n).1 = s := by
  have hinv := reachable_sysInv hs
  refine ⟨?_, ?_, query_ranking_fst s n⟩
  · intro h
    simp [query_ranking, h]
  · intro h
    obtain ⟨t, ht⟩ := Option.isSome_iff_exists.mp h
    have hmem : n ∈ s.team_order := by
      rw [hinv.2.1.mem_iff]
      exact alookup_isSome_iff.mp h
    obtain ⟨pre, post, hsplit, hpre, hfind⟩ := findRank_spec s.team_order n hmem 1
    refine ⟨pre, post, hsplit, hpre, ?_⟩
    unfold query_ranking
    rw [ht, hfind]
    simp [Nat.add_comm]

theorem claim_C8_witness :
    query_ranking (step (step initSys (Cmd.addTeam "B")) (Cmd.addTeam "A")) "C" =
      (step (step initSys (Cmd.addTeam "B")) (Cmd.addTeam "A"),
        RankRes.unknownTeam) ∧
    ∃ pre post,
      (step (step initSys (Cmd.addTeam "B")) (Cmd.addTeam "A")).team_order =
        pre ++ "A" :: post ∧ "A" ∉ pre ∧
      query_ranking (step (step initSys (Cmd.addTeam "B")) (Cmd.addTeam "A")) "A" =
        (step (step initSys (Cmd.addTeam "B")) (Cmd.addTeam "A"),
          RankRes.found
            (step (step initSys (Cmd.addTeam "B")) (Cmd.addTeam "A")).is_frozen
            (pre.length + 1)) :=
  ⟨(claim_C8_query_ranking _
      (Reachable.next (Reachable.next Reachable.base (Cmd.addTeam "B"))
        (Cmd.addTeam "A")) "C").1 (by decide),
    (claim_C8_query_ranking _
      (Reachable.next (Reachable.next Reachable.base (Cmd.addTeam "B"))
        (Cmd.addTeam "A")) "A").2.1 (by decide)⟩

theorem team_order_set_frozen (s : ICPCSystem) (b' : Bool) :
    ({ s with is_frozen := b' } : ICPCSystem).team_order = s.team_order := rfl

theorem update_scoreboard_teams (s : ICPCSystem) :
    (update_scoreboard s).teams = s.teams := rfl

theorem getTeam_congr_teams {s s' : ICPCSystem} (h : s'.teams = s.teams)
    (n : String) : getTeam s' n = getTeam s n := by
  unfold getTeam
  rw [h]

theorem compare_teams_congr_teams {s s' : ICPCSystem} (h : s'.teams = s.teams)
    (a b : String) : compare_teams s' a b = compare_teams s a b := by
  unfold compare_teams
  rw [getTeam_congr_teams h, getTeam_congr_teams h]

theorem scroll_frozen_eq {s : ICPCSystem} (hf : s.is_frozen = true) :
    scroll s = (update_scoreboard { s with is_frozen := false },
      some (standingsLines (update_scoreboard { s with is_frozen := false })
        ((update_scoreboard { s with is_frozen := false }).team_order) 0)) := by
  unfold scroll
  rw [if_neg (by rw [hf]; simp)]

/-- Claim C3: Scroll on a frozen scoreboard unfreezes it, re-sorts the
visible order by the standings comparator (the result is a permutation of
the old order, pairwise ordered by the comparator), and emits one line per
team — name, 1-based rank, solved count, penalty — in the new order; Scroll
on an unfrozen scoreboard fails with NotFrozen and changes nothing. -/
theorem claim_C3_scroll (s : ICPCSystem) (hs : Reachable s) :
    (s.is_frozen = true →
      (scroll s).1.is_frozen = false ∧
      (scroll s).1.team_order.Perm s.team_order ∧
      (scroll s).1.team_order.Pairwise (fun a b => compare_teams s a b = true) ∧
      ∃ lines, (scroll s).2 = some lines ∧
        lines.length = (scroll s).1.team_order.length ∧
        ∀ (i : Nat) (h1 : i < lines.length)
          (h2 : i < (scroll s).1.team_order.length),
          lines.get ⟨i, h1⟩ =
            ((scroll s).1.team_order.get ⟨i, h2⟩, i + 1,
              (getTeam s ((scroll s).1.team_order.get ⟨i, h2⟩)).solved_problems,
              (getTeam s ((scroll s).1.team_order.get ⟨i, h2⟩)).penalty_time)) ∧
    (s.is_frozen = false → scroll s = (s, none)) := by
  have hinv := reachable_sysInv hs
  have hrel : (fun a b => compare_teams { s with is_frozen := false } a b = true)
      = (fun a b => compare_teams s a b = true) := by
    funext a b
    rw [compare_teams_congr_teams (teams_set_frozen s false)]
  have hreg : ∀ m, m ∈ s.team_order → (alookup s.teams m).isSome := by
    intro m hm
    rw [alookup_isSome_iff]
    exact hinv.2.1.mem_iff.mp hm
  have hname : ∀ m, (alookup s.teams m).isSome → (getTeam s m).name = m := by
    intro m hm
    obtain ⟨t, ht⟩ := Option.isSome_iff_exists.mp hm
    rw [getTeam_eq ht]
    exact (hinv.2.2 m t ht).1
  constructor
  · intro hf
    rw [scroll_frozen_eq hf]
    have horder : (update_scoreboard { s with is_frozen := false }).team_order
        = List.insertionSort (fun a b => compare_teams s a b = true)
            s.team_order := rfl
    refine ⟨rfl, ?_, ?_, ?_⟩
    · rw [horder]
      exact List.perm_insertionSort _ _
    · rw [horder]
      refine pairwise_insertionSort s.team_order ?_ ?_ ?_
      · intro x hx y hy z hz hxy hyz
        exact compare_teams_trans (sysInv_len hinv (hreg x hx))
          (sysInv_len hinv (hreg y hy)) (sysInv_len hinv (hreg z hz)) hxy hyz
      · intro x hx y hy hne
        cases h : compare_teams s y x with
        | false => exact Or.inl ((compare_teams_true_iff_not hne).mpr h)
        | true => exact Or.inr rfl
      · exact hinv.2.1.nodup_iff.mpr hinv.1
    · refine ⟨standingsLines (update_scoreboard { s with is_frozen := false })
          ((update_scoreboard { s with is_frozen := false }).team_order) 0,
        rfl, standingsLines_length _ _ _, ?_⟩
      intro i h1 h2
      have h2' : i < (update_scoreboard { s with is_frozen := false
        }).team_order.length := h2
      rw [standingsLines_get _ _ 0 i h1 h2']
      have hmem : (update_scoreboard { s with is_frozen := false
        }).team_order.get ⟨i, h2'⟩ ∈ s.team_order :=
        (List.mem_insertionSort (fun a b => compare_teams s a b = true)).mp
          (List.get_mem _ i h2')
      have hgt : getTeam (update_scoreboard { s with is_frozen := false })
          ((update_scoreboard { s with is_frozen := false
            }).team_order.get ⟨i, h2'⟩)
          = getTeam s ((update_scoreboard { s with is_frozen := false
            }).team_order.get ⟨i, h2'⟩) :=
        getTeam_congr_teams rfl _
      rw [hgt, hname _ (hreg _ hmem), Nat.zero_add]
  · intro hf
    unfold scroll
    rw [if_pos hf]

theorem claim_C3_witness :
    (scroll (step (step initSys (Cmd.addTeam "A")) Cmd.freeze)).1.is_frozen
        = false ∧
    (scroll (step (step initSys (Cmd.addTeam "A")) Cmd.freeze)).1.team_order.Perm
      (step (step initSys (Cmd.addTeam "A")) Cmd.freeze).team_order ∧
    scroll initSys = (initSys, none) :=
  ⟨((claim_C3_scroll _
      (Reachable.next (Reachable.next Reachable.base (Cmd.addTeam "A"))
        Cmd.freeze)).1 (by decide)).1,
    ((claim_C3_scroll _
      (Reachable.next (Reachable.next Reachable.base (Cmd.addTeam "A"))
        Cmd.freeze)).1 (by decide)).2.1,
    (claim_C3_scroll initSys Reachable.base).2 rfl⟩

/-- Claim C9: in every reachable state each team ledger has solved count
equal to the number of first-acceptance entries and to the number of solve
times, the solve times sorted descending and no duplicated first-acceptance
entry; and across any single operation the solved count and penalty never
decrease and recorded first-acceptance times are never overwritten. -/
theorem claim_C9_ledger_invariants (s : ICPCSystem) (hs : Reachable s) :
    (∀ n t, alookup s.teams n = some t →
      t.solved_problems = t.first_ac_time.length ∧
      t.solved_problems = t.solve_times.length ∧
      t.solve_times.Sorted (· ≥ ·) ∧
      (t.first_ac_time.map Prod.fst).Nodup) ∧
    (∀ (c : Cmd) n t, alookup s.teams n = some t →
      ∃ t', alookup (step s c).teams n = some t' ∧
        t.solved_problems ≤ t'.solved_problems ∧
        t.penalty_time ≤ t'.penalty_time ∧
        ∀ p x, alookup t.first_ac_time p = some x →
          alookup t'.first_ac_time p = some x) := by
  have hinv := reachable_sysInv hs
  exact ⟨fun n t h =>
      ⟨(hinv.2.2 n t h).2.1, (hinv.2.2 n t h).2.2.1,
        (hinv.2.2 n t h).2.2.2.1, (hinv.2.2 n t h).2.2.2.2⟩,
    fun c n t h => step_mono s c h⟩

theorem claim_C9_witness :
    ∃ t, alookup (step (step initSys (Cmd.addTeam "A"))
        (Cmd.submit "A" "p" "Accepted" 5)).teams "A" = some t ∧
      (t.solved_problems = t.first_ac_time.length ∧
        t.solved_problems = t.solve_times.length ∧
        t.solve_times.Sorted (· ≥ ·) ∧
        (t.first_ac_time.map Prod.fst).Nodup) ∧
      ∃ t', alookup (step (step (step initSys (Cmd.addTeam "A"))
          (Cmd.submit "A" "p" "Accepted" 5)) Cmd.flush).teams "A" = some t' ∧
        t.solved_problems ≤ t'.solved_problems ∧
        t.penalty_time ≤ t'.penalty_time ∧
        ∀ p x, alookup t.first_ac_time p = some x →
          alookup t'.first_ac_time p = some x := by
  refine ⟨{ name := "A", solved_problems := 1, penalty_time := 5,
            wrong_submissions := [("p", 0)], first_ac_time := [("p", 5)],
            solve_times := [5],
            submissions :=
              [{ team_name := "A", problem_name := "p", status := "Accepted",
                 time := 5 }] }, by decide, ?_, ?_⟩
  · exact (claim_C9_ledger_invariants _
      (Reachable.next (Reachable.next Reachable.base (Cmd.addTeam "A"))
        (Cmd.submit "A" "p" "Accepted" 5))).1 "A" _ (by decide)
  · exact (claim_C9_ledger_invariants _
      (Reachable.next (Reachable.next Reachable.base (Cmd.addTeam "A"))
        (Cmd.submit "A" "p" "Accepted" 5))).2 Cmd.flush "A" _ (by decide)

/-- Claim C10: in every reachable state the visible order contains exactly
the registered team names, each exactly once; hence QueryRank on any
registered team answers a rank between 1 and the number of registered
teams, and the standings printed by Scroll list every registered team
exactly once. -/
theorem claim_C10_visible_order (s : ICPCSystem) (hs : Reachable s) :
    (s.team_order.Perm (s.teams.map Prod.fst) ∧ s.team_order.Nodup) ∧
    (∀ n, (alookup s.teams n).isSome →
      ∃ r, query_ranking s n = (s, RankRes.found s.is_frozen r) ∧
        1 ≤ r ∧ r ≤ s.teams.length) ∧
    (s.is_frozen = true →
      ∃ lines, (scroll s).2 = some lines ∧
        (lines.map Prod.fst).Perm (s.teams.map Prod.fst) ∧
        (lines.map Prod.fst).Nodup) := by
  have hinv := reachable_sysInv hs
  refine ⟨⟨hinv.2.1, hinv.2.1.nodup_iff.mpr hinv.1⟩, ?_, ?_⟩
  · intro n h
    have hmem : n ∈ s.team_order := hinv.2.1.mem_iff.mpr (alookup_isSome_iff.mp h)
    obtain ⟨t, ht⟩ := Option.isSome_iff_exists.mp h
    obtain ⟨pre, post, hsplit, hpre, hfind⟩ := findRank_spec s.team_order n hmem 1
    refine ⟨pre.length + 1, ?_, by omega, ?_⟩
    · unfold query_ranking
      rw [ht, hfind]
      simp [Nat.add_comm]
    · have h1 : pre.length + 1 ≤ s.team_order.length := by
        rw [hsplit]
        simp [List.length_append]
      have h2 : s.team_order.length = s.teams.length := by
        rw [hinv.2.1.length_eq, List.length_map]
      omega
  · intro hf
    rw [scroll_frozen_eq hf]
    have horder : (update_scoreboard { s with is_frozen := false }).team_order
        = List.insertionSort (fun a b => compare_teams s a b = true)
            s.team_order := rfl
    have hmap : (standingsLines (update_scoreboard { s with is_frozen := false })
          ((update_scoreboard { s with is_frozen := false }).team_order) 0).map
            Prod.fst
        = (update_scoreboard { s with is_frozen := false }).team_order := by
      apply standingsLines_map_fst
      intro m hm
      have hm' : m ∈ s.team_order :=
        (List.mem_insertionSort (fun a b => compare_teams s a b = true)).mp hm
      have hreg : (alookup s.teams m).isSome := by
        rw [alookup_isSome_iff]
        exact hinv.2.1.mem_iff.mp hm'
      obtain ⟨t, ht⟩ := Option.isSome_iff_exists.mp hreg
      show (getTeam s m).name = m
      rw [getTeam_eq ht]
      exact (hinv.2.2 m t ht).1
    refine ⟨_, rfl, ?_, ?_⟩
    · rw [hmap, horder]
      exact (List.perm_insertionSort _ _).trans hinv.2.1
    · rw [hmap, horder]
      exact (List.perm_insertionSort _ _).nodup_iff.mpr
        (hinv.2.1.nodup_iff.mpr hinv.1)

theorem claim_C10_witness :
    (step (step (step initSys (Cmd.addTeam "B")) (Cmd.addTeam "A"))
        Cmd.freeze).team_order.Perm
      ((step (step (step initSys (Cmd.addTeam "B")) (Cmd.addTeam "A"))
        Cmd.freeze).teams.map Prod.fst) ∧
    (∃ r, query_ranking (step (step (step initSys (Cmd.addTeam "B"))
          (Cmd.addTeam "A")) Cmd.freeze) "A" =
        (step (step (step initSys (Cmd.addTeam "B")) (Cmd.addTeam "A"))
          Cmd.freeze,
          RankRes.found (step (step (step initSys (Cmd.addTeam "B"))
            (Cmd.addTeam "A")) Cmd.freeze).is_frozen r) ∧
        1 ≤ r ∧ r ≤ (step (step (step initSys (Cmd.addTeam "B"))
          (Cmd.addTeam "A")) Cmd.freeze).teams.length) ∧
    ∃ lines, (scroll (step (step (step initSys (Cmd.addTeam "B"))
        (Cmd.addTeam "A")) Cmd.freeze)).2 = some lines ∧
      (lines.map Prod.fst).Perm ((step (step (step initSys (Cmd.addTeam "B"))
        (Cmd.addTeam "A")) Cmd.freeze).teams.map Prod.fst) ∧
      (lines.map Prod.fst).Nodup :=
  ⟨(claim_C10_visible_order _
      (Reachable.next (Reachable.next (Reachable.next Reachable.base
        (Cmd.addTeam "B")) (Cmd.addTeam "A")) Cmd.freeze)).1.1,
    (claim_C10_visible_order _
      (Reachable.next (Reachable.next (Reachable.next Reachable.base
        (Cmd.addTeam "B")) (Cmd.addTeam "A")) Cmd.freeze)).2.1 "A" (by decide),
    (claim_C10_visible_order _
      (Reachable.next (Reachable.next (Reachable.next Reachable.base
        (Cmd.addTeam "B")) (Cmd.addTeam "A")) Cmd.freeze)).2.2 (by decide)⟩
